import Mathlib

/-!
Verification of the Day-5 in-memory cache exercise (`Cache` in the Go source):
a string-keyed key-value store with per-key access counts, hit/miss counters,
lexicographically sorted key listing, and most/least-accessed rankings.

Modelling conventions:
* A Go `map[string]V` is embedded as an association list `List (String × V)`
  with the usual lookup/insert/erase functions.  Two lists that are
  permutations of each other (with distinct keys) denote the same Go map; the
  list order plays the role of Go's unspecified map iteration order, which is
  what `MostAccessed`/`LeastAccessed` range over before sorting.
* `sort.Slice` with the count comparator is embedded as `List.insertionSort`
  with the same comparator.  Go's sort is unstable, so the set of outputs it
  can produce on a map equals the set of outputs `insertionSort` produces over
  all enumeration orders of that map; determinism questions are therefore asked
  across permutation-equal states (`StateEq`).
* `make([]string, 0, n)` panics at runtime in Go when `n < 0`; the rankings
  are therefore embedded as `Int → Option (List String)`, with `none` for the
  panic.
* The `float64` hit rate is embedded exactly, over `ℚ`.
-/

namespace GoCache

/-- Go map read `m[k]` (first matching entry of the association list). -/
def mapLookup {α : Type} : List (String × α) → String → Option α
  | [], _ => none
  | (k2, v) :: m, k => if k2 = k then some v else mapLookup m k

/-- Go map write `m[k] = v`: replace the entry in place, or append it. -/
def mapInsert {α : Type} : List (String × α) → String → α → List (String × α)
  | [], k, v => [(k, v)]
  | (k2, w) :: m, k, v =>
      if k2 = k then (k, v) :: m else (k2, w) :: mapInsert m k v

/-- Go `delete(m, k)`: remove every entry carrying the key. -/
def mapErase {α : Type} : List (String × α) → String → List (String × α)
  | [], _ => []
  | (k2, w) :: m, k =>
      if k2 = k then mapErase m k else (k2, w) :: mapErase m k

/-- Go `m[k]++` on an int-valued map: absent keys read as the zero value 0. -/
def mapIncr (m : List (String × Nat)) (k : String) : List (String × Nat) :=
  mapInsert m k ((mapLookup m k).getD 0 + 1)

/-- The `Cache` struct: `data`, `accessCount`, `hits`, `misses`. -/
structure Cache where
  data : List (String × String)
  accessCount : List (String × Nat)
  hits : Nat
  misses : Nat

/-- `NewCache` returns an empty cache with zeroed counters. -/
def NewCache : Cache := ⟨[], [], 0, 0⟩

/-- `Set` stores the value and initializes the access count to 0 for new keys. -/
def Cache.Set (c : Cache) (key value : String) : Cache :=
  { c with
    data := mapInsert c.data key value
    accessCount :=
      if (mapLookup c.accessCount key).isSome then c.accessCount
      else mapInsert c.accessCount key 0 }

/-- `Get` returns `(value, found)` and the updated cache: on a hit it bumps
`hits` and the key's access count, on a miss it bumps `misses`. -/
def Cache.Get (c : Cache) (key : String) : (String × Bool) × Cache :=
  match mapLookup c.data key with
  | some value =>
      ((value, true),
        { c with hits := c.hits + 1, accessCount := mapIncr c.accessCount key })
  | none => (("", false), { c with misses := c.misses + 1 })

/-- `Delete` removes the key from both maps when present and reports whether
it was present. -/
def Cache.Delete (c : Cache) (key : String) : Bool × Cache :=
  if (mapLookup c.data key).isSome then
    (true,
      { c with
        data := mapErase c.data key
        accessCount := mapErase c.accessCount key })
  else (false, c)

/-- `Size` is the number of stored entries (`len(c.data)`). -/
def Cache.Size (c : Cache) : Nat := c.data.length

/-- `Keys` lists all keys, sorted lexicographically (`sort.Strings`). -/
def Cache.Keys (c : Cache) : List String :=
  List.insertionSort (· ≤ ·) (c.data.map Prod.fst)

/-- `Stats` returns `(hits, misses, hitRate)`; the `float64` hit rate is
embedded over `ℚ`: 0 when there were no lookups, else `hits / total * 100`. -/
def Cache.Stats (c : Cache) : Nat × Nat × ℚ :=
  if c.hits + c.misses = 0 then (c.hits, c.misses, 0)
  else (c.hits, c.misses, (c.hits : ℚ) / ((c.hits : ℚ) + (c.misses : ℚ)) * 100)

/-- The comparator of `MostAccessed`'s `sort.Slice` call: descending count. -/
def descCount (a b : String × Nat) : Prop := b.2 ≤ a.2

/-- The comparator of `LeastAccessed`'s `sort.Slice` call: ascending count. -/
def ascCount (a b : String × Nat) : Prop := a.2 ≤ b.2

instance : DecidableRel descCount := fun _ _ => Nat.decLe _ _

instance : DecidableRel ascCount := fun _ _ => Nat.decLe _ _

instance : IsTotal (String × Nat) descCount := ⟨fun a b => Nat.le_total b.2 a.2⟩

instance : IsTotal (String × Nat) ascCount := ⟨fun a b => Nat.le_total a.2 b.2⟩

instance : IsTrans (String × Nat) descCount :=
  ⟨fun _ _ _ hab hbc => Nat.le_trans hbc hab⟩

instance : IsTrans (String × Nat) ascCount :=
  ⟨fun _ _ _ hab hbc => Nat.le_trans hab hbc⟩

/-- The `(key, count)` slice of `MostAccessed` after its sort: the access-count
entries sorted by descending count. -/
def sortedDesc (c : Cache) : List (String × Nat) :=
  List.insertionSort descCount c.accessCount

/-- The `(key, count)` slice of `LeastAccessed` after its sort: the access-count
entries sorted by ascending count. -/
def sortedAsc (c : Cache) : List (String × Nat) :=
  List.insertionSort ascCount c.accessCount

/-- `MostAccessed(n)`: collect the `(key, count)` pairs, sort by descending
count, take the first `n` keys.  `make([]string, 0, n)` panics in Go when
`n < 0`, embedded as `none`. -/
def Cache.MostAccessed (c : Cache) (n : Int) : Option (List String) :=
  if n < 0 then none
  else some (((sortedDesc c).take n.toNat).map Prod.fst)

/-- `LeastAccessed(n)`: as `MostAccessed` but by ascending count. -/
def Cache.LeastAccessed (c : Cache) (n : Int) : Option (List String) :=
  if n < 0 then none
  else some (((sortedAsc c).take n.toNat).map Prod.fst)

/-- `Clear` replaces both maps by fresh empty ones and zeroes both counters. -/
def Cache.Clear (_ : Cache) : Cache := ⟨[], [], 0, 0⟩

/-- One call through the cache façade (ignoring returned values). -/
inductive Op where
  | set (key value : String)
  | get (key : String)
  | del (key : String)
  | clear
deriving DecidableEq

/-- The state transition of one façade call. -/
def applyOp (c : Cache) : Op → Cache
  | .set k v => c.Set k v
  | .get k => (c.Get k).2
  | .del k => (c.Delete k).2
  | .clear => c.Clear

/-- Run a sequence of façade calls left to right. -/
def run (c : Cache) (ops : List Op) : Cache := ops.foldl applyOp c

/-- Number of `Get` calls in a sequence. -/
def countGets : List Op → Nat
  | [] => 0
  | Op.get _ :: ops => countGets ops + 1
  | _ :: ops => countGets ops

/-- Number of `Get` calls for one particular key in a sequence. -/
def countGetsOf (k : String) : List Op → Nat
  | [] => 0
  | Op.get k2 :: ops => (if k2 = k then 1 else 0) + countGetsOf k ops
  | _ :: ops => countGetsOf k ops

/-- Two embedded caches denote the same Go cache state: the maps hold the same
entries (list order only models iteration order) and the counters agree. -/
def StateEq (c1 c2 : Cache) : Prop :=
  c1.data.Perm c2.data ∧ c1.accessCount.Perm c2.accessCount ∧
    c1.hits = c2.hits ∧ c1.misses = c2.misses

/-- The count column of `MostAccessed(n)`'s output. -/
def mostAccessedCounts (c : Cache) (n : Int) : Option (List Nat) :=
  if n < 0 then none
  else some (((sortedDesc c).take n.toNat).map Prod.snd)

/-- The count column of `LeastAccessed(n)`'s output. -/
def leastAccessedCounts (c : Cache) (n : Int) : Option (List Nat) :=
  if n < 0 then none
  else some (((sortedAsc c).take n.toNat).map Prod.snd)

/-- The spec's own hit-rate formula, written from its words: derived
`hitRate = hits / (hits + misses) * 100`, defined as 0 when
`hits + misses == 0` (exact arithmetic over `ℚ`). -/
def specHitRate (hits misses : Nat) : ℚ :=
  if hits + misses = 0 then 0
  else (hits : ℚ) / ((hits + misses : Nat) : ℚ) * 100

/-- Every key carrying an access count is stored in `data`.  This holds in
every state reachable through the façade and is what makes `Delete` remove
the count whenever one exists. -/
def DomSub (c : Cache) : Prop :=
  ∀ k, (mapLookup c.accessCount k).isSome = true →
    (mapLookup c.data k).isSome = true

@[simp]
theorem mapLookup_insert_self {α : Type} (m : List (String × α)) (k : String)
    (v : α) : mapLookup (mapInsert m k v) k = some v := by
  induction m with
  | nil => simp [mapInsert, mapLookup]
  | cons hd tl ih =>
      obtain ⟨k2, w⟩ := hd
      by_cases h : k2 = k <;> simp [mapInsert, mapLookup, h, ih]

theorem mapLookup_insert_ne {α : Type} (m : List (String × α)) {k2 k : String}
    (v : α) (h : k2 ≠ k) : mapLookup (mapInsert m k2 v) k = mapLookup m k := by
  induction m with
  | nil => simp [mapInsert, mapLookup, h]
  | cons hd tl ih =>
      obtain ⟨k3, w⟩ := hd
      by_cases h3 : k3 = k2 <;> simp [mapInsert, mapLookup, h3, h, ih]

@[simp]
theorem mapLookup_erase_self {α : Type} (m : List (String × α)) (k : String) :
    mapLookup (mapErase m k) k = none := by
  induction m with
  | nil => simp [mapErase, mapLookup]
  | cons hd tl ih =>
      obtain ⟨k2, w⟩ := hd
      by_cases h : k2 = k <;> simp [mapErase, mapLookup, h, ih]

theorem mapLookup_erase_ne {α : Type} (m : List (String × α)) {k2 k : String}
    (h : k2 ≠ k) : mapLookup (mapErase m k2) k = mapLookup m k := by
  induction m with
  | nil => simp [mapErase, mapLookup]
  | cons hd tl ih =>
      obtain ⟨k3, w⟩ := hd
      by_cases h3 : k3 = k2
      · simp [mapErase, mapLookup, h3, h, ih]
      · simp [mapErase, mapLookup, h3, ih]

@[simp]
theorem run_nil (c : Cache) : run c [] = c := rfl

@[simp]
theorem run_cons (c : Cache) (o : Op) (ops : List Op) :
    run c (o :: ops) = run (applyOp c o) ops := rfl

theorem sorted_take_drop {α : Type} {r : α → α → Prop} {s : List α}
    (hs : List.Sorted r s) (n : Nat) :
    ∀ p ∈ s.take n, ∀ q ∈ s.drop n, r p q := by
  have h := List.take_append_drop n s
  rw [← h] at hs
  exact (List.pairwise_append.mp hs).2.2

/-- Claim C8: after `Clear()` the size is 0, `Stats()` is `(0, 0, 0)` and
`Keys()` is empty: `Clear` replaces both maps by empty ones and zeroes both
counters. -/
theorem clear_resets_everything (c : Cache) :
    (c.Clear).Size = 0 ∧ (c.Clear).Stats = (0, 0, 0) ∧ (c.Clear).Keys = [] := by
  refine ⟨rfl, ?_, rfl⟩
  simp [Cache.Clear, Cache.Stats]

/-- Claim C7: `Stats` never divides by zero: it returns the spec's hit rate,
which is 0 when `hits + misses = 0` and `hits / (hits + misses) * 100`
otherwise, and on a never-queried cache it returns `(0, 0, 0)`. -/
theorem stats_no_div_by_zero (c : Cache) :
    c.Stats = (c.hits, c.misses, specHitRate c.hits c.misses) ∧
    NewCache.Stats = (0, 0, 0) := by
  refine ⟨?_, rfl⟩
  unfold Cache.Stats specHitRate
  by_cases h : c.hits + c.misses = 0 <;> simp [h]

/-- Claim C2 counterexample: at `n = -1` the rankings do not return an empty
sequence: `make([]string, 0, n)` panics in Go on a negative capacity, so the
embedded functions return `none` rather than `some []`. -/
theorem ranking_negative_n_panics :
    NewCache.MostAccessed (-1) = none ∧ NewCache.LeastAccessed (-1) = none ∧
      NewCache.MostAccessed (-1) ≠ some [] ∧
      NewCache.LeastAccessed (-1) ≠ some [] := by
  refine ⟨rfl, rfl, ?_, ?_⟩ <;> decide

/-- Claim C2 (amended): at `n = 0` both rankings return the empty sequence;
at `n < 0` the Go code panics (`make` with negative capacity, embedded as
`none`); when `n` is at least the number of keys they return all keys,
ranked. -/
theorem ranking_bounds (c : Cache) (n : Int) :
    (n = 0 → c.MostAccessed n = some [] ∧ c.LeastAccessed n = some []) ∧
    (n < 0 → c.MostAccessed n = none ∧ c.LeastAccessed n = none) ∧
    (0 ≤ n → (c.accessCount.length : Int) ≤ n →
      c.MostAccessed n = some ((sortedDesc c).map Prod.fst) ∧
      c.LeastAccessed n = some ((sortedAsc c).map Prod.fst) ∧
      ((sortedDesc c).map Prod.fst).Perm (c.accessCount.map Prod.fst) ∧
      ((sortedAsc c).map Prod.fst).Perm (c.accessCount.map Prod.fst)) := by
  refine ⟨?_, ?_, ?_⟩
  · rintro rfl
    simp [Cache.MostAccessed, Cache.LeastAccessed]
  · intro h
    simp [Cache.MostAccessed, Cache.LeastAccessed, h]
  · intro h0 hlen
    have hlt : ¬ n < 0 := not_lt.mpr h0
    have hd : (sortedDesc c).length ≤ n.toNat := by
      have := (List.perm_insertionSort descCount c.accessCount).length_eq
      unfold sortedDesc
      omega
    have ha : (sortedAsc c).length ≤ n.toNat := by
      have := (List.perm_insertionSort ascCount c.accessCount).length_eq
      unfold sortedAsc
      omega
    refine ⟨?_, ?_, ?_, ?_⟩
    · simp [Cache.MostAccessed, hlt, List.take_of_length_le hd]
    · simp [Cache.LeastAccessed, hlt, List.take_of_length_le ha]
    · exact (List.perm_insertionSort descCount c.accessCount).map Prod.fst
    · exact (List.perm_insertionSort ascCount c.accessCount).map Prod.fst

/-- Claim C2 witness: on a two-key cache, `n = 0` yields empty rankings and
`n = 5` (more than the number of keys) yields all keys, ranked. -/
theorem ranking_bounds_witness :
    (Cache.MostAccessed ⟨[("a", "x"), ("b", "y")], [("a", 2), ("b", 1)], 0, 0⟩ 0 = some [] ∧
     Cache.LeastAccessed ⟨[("a", "x"), ("b", "y")], [("a", 2), ("b", 1)], 0, 0⟩ 0 = some []) ∧
    (Cache.MostAccessed ⟨[("a", "x"), ("b", "y")], [("a", 2), ("b", 1)], 0, 0⟩ 5 =
      some ((sortedDesc ⟨[("a", "x"), ("b", "y")], [("a", 2), ("b", 1)], 0, 0⟩).map Prod.fst) ∧
     Cache.LeastAccessed ⟨[("a", "x"), ("b", "y")], [("a", 2), ("b", 1)], 0, 0⟩ 5 =
      some ((sortedAsc ⟨[("a", "x"), ("b", "y")], [("a", 2), ("b", 1)], 0, 0⟩).map Prod.fst) ∧
     ((sortedDesc ⟨[("a", "x"), ("b", "y")], [("a", 2), ("b", 1)], 0, 0⟩).map Prod.fst).Perm
      ((Cache.accessCount ⟨[("a", "x"), ("b", "y")], [("a", 2), ("b", 1)], 0, 0⟩).map Prod.fst) ∧
     ((sortedAsc ⟨[("a", "x"), ("b", "y")], [("a", 2), ("b", 1)], 0, 0⟩).map Prod.fst).Perm
      ((Cache.accessCount ⟨[("a", "x"), ("b", "y")], [("a", 2), ("b", 1)], 0, 0⟩).map Prod.fst)) :=
  ⟨(ranking_bounds ⟨[("a", "x"), ("b", "y")], [("a", 2), ("b", 1)], 0, 0⟩ 0).1 rfl,
   (ranking_bounds ⟨[("a", "x"), ("b", "y")], [("a", 2), ("b", 1)], 0, 0⟩ 5).2.2
     (by decide) (by decide)⟩

/-- Claim C1: for `n > 0`, `MostAccessed(n)` is exactly the full-sort-then-
truncate pipeline: the `(key, count)` entries are permuted into a list that is
sorted by descending count, every kept entry's count is at least every
dropped entry's count, the first `min n k` keys are returned, and
`LeastAccessed(n)` is the ascending mirror. -/
theorem ranking_sort_truncate (c : Cache) (n : Int) (h : 0 < n) :
    (sortedDesc c).Perm c.accessCount ∧
    List.Sorted descCount (sortedDesc c) ∧
    c.MostAccessed n = some (((sortedDesc c).take n.toNat).map Prod.fst) ∧
    (∀ p ∈ (sortedDesc c).take n.toNat,
      ∀ q ∈ (sortedDesc c).drop n.toNat, q.2 ≤ p.2) ∧
    (((sortedDesc c).take n.toNat).map Prod.fst).length =
      min n.toNat c.accessCount.length ∧
    (sortedAsc c).Perm c.accessCount ∧
    List.Sorted ascCount (sortedAsc c) ∧
    c.LeastAccessed n = some (((sortedAsc c).take n.toNat).map Prod.fst) ∧
    (∀ p ∈ (sortedAsc c).take n.toNat,
      ∀ q ∈ (sortedAsc c).drop n.toNat, p.2 ≤ q.2) ∧
    (((sortedAsc c).take n.toNat).map Prod.fst).length =
      min n.toNat c.accessCount.length := by
  have hlt : ¬ n < 0 := not_lt.mpr h.le
  have hld : (sortedDesc c).length = c.accessCount.length :=
    (List.perm_insertionSort descCount c.accessCount).length_eq
  have hla : (sortedAsc c).length = c.accessCount.length :=
    (List.perm_insertionSort ascCount c.accessCount).length_eq
  refine ⟨List.perm_insertionSort descCount c.accessCount,
    List.sorted_insertionSort descCount c.accessCount, ?_, ?_, ?_,
    List.perm_insertionSort ascCount c.accessCount,
    List.sorted_insertionSort ascCount c.accessCount, ?_, ?_, ?_⟩
  · simp [Cache.MostAccessed, hlt]
  · exact sorted_take_drop (List.sorted_insertionSort descCount c.accessCount)
      n.toNat
  · simp [List.length_take, hld]
  · simp [Cache.LeastAccessed, hlt]
  · exact sorted_take_drop (List.sorted_insertionSort ascCount c.accessCount)
      n.toNat
  · simp [List.length_take, hla]

/-- Claim C1 witness: the sort-truncate description instantiated on a
two-key cache with counts 2 and 1, at `n = 1`. -/
theorem ranking_sort_truncate_witness :
    (0 : Int) < 1 ∧
    ((sortedDesc ⟨[("a", "1"), ("b", "2")], [("a", 2), ("b", 1)], 0, 0⟩).Perm
      (Cache.accessCount ⟨[("a", "1"), ("b", "2")], [("a", 2), ("b", 1)], 0, 0⟩) ∧
    List.Sorted descCount
      (sortedDesc ⟨[("a", "1"), ("b", "2")], [("a", 2), ("b", 1)], 0, 0⟩) ∧
    Cache.MostAccessed ⟨[("a", "1"), ("b", "2")], [("a", 2), ("b", 1)], 0, 0⟩ 1 =
      some (((sortedDesc
        ⟨[("a", "1"), ("b", "2")], [("a", 2), ("b", 1)], 0, 0⟩).take
          (1 : Int).toNat).map Prod.fst) ∧
    (∀ p ∈ (sortedDesc
        ⟨[("a", "1"), ("b", "2")], [("a", 2), ("b", 1)], 0, 0⟩).take
          (1 : Int).toNat,
      ∀ q ∈ (sortedDesc
        ⟨[("a", "1"), ("b", "2")], [("a", 2), ("b", 1)], 0, 0⟩).drop
          (1 : Int).toNat, q.2 ≤ p.2) ∧
    (((sortedDesc ⟨[("a", "1"), ("b", "2")], [("a", 2), ("b", 1)], 0, 0⟩).take
        (1 : Int).toNat).map Prod.fst).length =
      min (1 : Int).toNat
        (Cache.accessCount
          ⟨[("a", "1"), ("b", "2")], [("a", 2), ("b", 1)], 0, 0⟩).length ∧
    (sortedAsc ⟨[("a", "1"), ("b", "2")], [("a", 2), ("b", 1)], 0, 0⟩).Perm
      (Cache.accessCount ⟨[("a", "1"), ("b", "2")], [("a", 2), ("b", 1)], 0, 0⟩) ∧
    List.Sorted ascCount
      (sortedAsc ⟨[("a", "1"), ("b", "2")], [("a", 2), ("b", 1)], 0, 0⟩) ∧
    Cache.LeastAccessed ⟨[("a", "1"), ("b", "2")], [("a", 2), ("b", 1)], 0, 0⟩ 1 =
      some (((sortedAsc
        ⟨[("a", "1"), ("b", "2")], [("a", 2), ("b", 1)], 0, 0⟩).take
          (1 : Int).toNat).map Prod.fst) ∧
    (∀ p ∈ (sortedAsc
        ⟨[("a", "1"), ("b", "2")], [("a", 2), ("b", 1)], 0, 0⟩).take
          (1 : Int).toNat,
      ∀ q ∈ (sortedAsc
        ⟨[("a", "1"), ("b", "2")], [("a", 2), ("b", 1)], 0, 0⟩).drop
          (1 : Int).toNat, p.2 ≤ q.2) ∧
    (((sortedAsc ⟨[("a", "1"), ("b", "2")], [("a", 2), ("b", 1)], 0, 0⟩).take
        (1 : Int).toNat).map Prod.fst).length =
      min (1 : Int).toNat
        (Cache.accessCount
          ⟨[("a", "1"), ("b", "2")], [("a", 2), ("b", 1)], 0, 0⟩).length) :=
  ⟨by decide,
   ranking_sort_truncate ⟨[("a", "1"), ("b", "2")], [("a", 2), ("b", 1)], 0, 0⟩
     1 (by decide)⟩

theorem hits_misses_run (ops : List Op) : ∀ c : Cache,
    (∀ o ∈ ops, o ≠ Op.clear) →
    (run c ops).hits + (run c ops).misses = c.hits + c.misses + countGets ops := by
  induction ops with
  | nil => intro c _; simp [run, countGets]
  | cons o ops ih =>
      intro c h
      have h0 : o ≠ Op.clear := h o (List.mem_cons_self o ops)
      have h1 : ∀ o2 ∈ ops, o2 ≠ Op.clear :=
        fun o2 m => h o2 (List.mem_cons_of_mem o m)
      rw [run_cons]
      cases o with
      | set k v =>
          have := ih (c.Set k v) h1
          simpa [applyOp, Cache.Set, countGets] using this
      | get k =>
          cases hm : mapLookup c.data k with
          | some v =>
              have := ih ((c.Get k).2) h1
              simp only [applyOp] at *
              rw [this]
              simp [Cache.Get, hm, countGets]
              omega
          | none =>
              have := ih ((c.Get k).2) h1
              simp only [applyOp] at *
              rw [this]
              simp [Cache.Get, hm, countGets]
              omega
      | del k =>
          have := ih ((c.Delete k).2) h1
          simp only [applyOp] at *
          rw [this]
          by_cases hm : (mapLookup c.data k).isSome <;>
            simp [Cache.Delete, hm, countGets]
      | clear => exact absurd rfl h0

/-- Claim C3: starting from a fresh cache, or from any cache right after
`Clear`, and running any sequence of façade calls that contains no further
`Clear`, the reported `hits + misses` equals the number of `Get` calls in the
sequence. -/
theorem hit_miss_accounting (c0 : Cache) (ops : List Op)
    (hclear : ∀ o ∈ ops, o ≠ Op.clear)
    (hstart : c0 = NewCache ∨ ∃ c : Cache, c0 = Cache.Clear c) :
    (run c0 ops).hits + (run c0 ops).misses = countGets ops := by
  have h := hits_misses_run ops c0 hclear
  rcases hstart with h0 | ⟨c, h0⟩ <;> subst h0 <;>
    simpa [NewCache, Cache.Clear] using h

/-- Claim C3 witness: a six-call history with three `Get`s (two hits, one
miss) reports `hits + misses = 3`. -/
theorem hit_miss_accounting_witness :
    (∀ o ∈ [Op.set "a" "1", Op.get "a", Op.get "zzz", Op.set "b" "2",
        Op.get "b", Op.del "a"], o ≠ Op.clear) ∧
    (run NewCache [Op.set "a" "1", Op.get "a", Op.get "zzz", Op.set "b" "2",
        Op.get "b", Op.del "a"]).hits +
      (run NewCache [Op.set "a" "1", Op.get "a", Op.get "zzz", Op.set "b" "2",
        Op.get "b", Op.del "a"]).misses =
      countGets [Op.set "a" "1", Op.get "a", Op.get "zzz", Op.set "b" "2",
        Op.get "b", Op.del "a"] :=
  ⟨by decide,
   hit_miss_accounting NewCache
     [Op.set "a" "1", Op.get "a", Op.get "zzz", Op.set "b" "2",
      Op.get "b", Op.del "a"] (by decide) (Or.inl rfl)⟩

theorem count_after_run (ops : List Op) : ∀ (c : Cache) (k : String) (m : Nat),
    (mapLookup c.data k).isSome = true →
    mapLookup c.accessCount k = some m →
    (∀ o ∈ ops, o ≠ Op.del k ∧ o ≠ Op.clear) →
    mapLookup (run c ops).accessCount k = some (m + countGetsOf k ops) ∧
      (mapLookup (run c ops).data k).isSome = true := by
  induction ops with
  | nil => intro c k m hd ha _; exact ⟨by simpa [countGetsOf] using ha, hd⟩
  | cons o ops ih =>
      intro c k m hd ha h
      have h0 := h o (List.mem_cons_self o ops)
      have h1 : ∀ o2 ∈ ops, o2 ≠ Op.del k ∧ o2 ≠ Op.clear :=
        fun o2 mo => h o2 (List.mem_cons_of_mem o mo)
      rw [run_cons]
      cases o with
      | set k2 v =>
          simp only [applyOp]
          by_cases hk : k2 = k
          · subst hk
            have hd2 : (mapLookup (c.Set k2 v).data k2).isSome = true := by
              simp [Cache.Set]
            have ha2 : mapLookup (c.Set k2 v).accessCount k2 = some m := by
              simp [Cache.Set, ha]
            simpa [countGetsOf] using ih (c.Set k2 v) k2 m hd2 ha2 h1
          · have hd2 : (mapLookup (c.Set k2 v).data k).isSome = true := by
              simpa [Cache.Set, mapLookup_insert_ne _ _ hk] using hd
            have ha2 : mapLookup (c.Set k2 v).accessCount k = some m := by
              by_cases hs : (mapLookup c.accessCount k2).isSome <;>
                simp [Cache.Set, hs, mapLookup_insert_ne _ _ hk, ha]
            simpa [countGetsOf] using ih (c.Set k2 v) k m hd2 ha2 h1
      | get k2 =>
          simp only [applyOp]
          by_cases hk : k2 = k
          · subst hk
            obtain ⟨v, hv⟩ := Option.isSome_iff_exists.mp hd
            have hd2 : (mapLookup ((c.Get k2).2).data k2).isSome = true := by
              simp [Cache.Get, hv, hd]
            have ha2 : mapLookup ((c.Get k2).2).accessCount k2 = some (m + 1) := by
              simp [Cache.Get, hv, mapIncr, ha]
            have := ih ((c.Get k2).2) k2 (m + 1) hd2 ha2 h1
            simpa [countGetsOf, Nat.add_assoc, Nat.add_comm 1] using this
          · cases hv : mapLookup c.data k2 with
            | some v =>
                have hd2 : (mapLookup ((c.Get k2).2).data k).isSome = true := by
                  simp [Cache.Get, hv, hd]
                have ha2 : mapLookup ((c.Get k2).2).accessCount k = some m := by
                  simp [Cache.Get, hv, mapIncr, mapLookup_insert_ne _ _ hk, ha]
                simpa [countGetsOf, hk] using ih ((c.Get k2).2) k m hd2 ha2 h1
            | none =>
                have hd2 : (mapLookup ((c.Get k2).2).data k).isSome = true := by
                  simp [Cache.Get, hv, hd]
                have ha2 : mapLookup ((c.Get k2).2).accessCount k = some m := by
                  simp [Cache.Get, hv, ha]
                simpa [countGetsOf, hk] using ih ((c.Get k2).2) k m hd2 ha2 h1
      | del k2 =>
          simp only [applyOp]
          have hk : k2 ≠ k := by
            intro hkk
            exact h0.1 (by rw [hkk])
          by_cases hs : (mapLookup c.data k2).isSome
          · have hd2 : (mapLookup ((c.Delete k2).2).data k).isSome = true := by
              simpa [Cache.Delete, hs, mapLookup_erase_ne _ hk] using hd
            have ha2 : mapLookup ((c.Delete k2).2).accessCount k = some m := by
              simpa [Cache.Delete, hs, mapLookup_erase_ne _ hk] using ha
            simpa [countGetsOf] using ih ((c.Delete k2).2) k m hd2 ha2 h1
          · have hd2 : (mapLookup ((c.Delete k2).2).data k).isSome = true := by
              simpa [Cache.Delete, hs] using hd
            have ha2 : mapLookup ((c.Delete k2).2).accessCount k = some m := by
              simpa [Cache.Delete, hs] using ha
            simpa [countGetsOf] using ih ((c.Delete k2).2) k m hd2 ha2 h1
      | clear => exact absurd rfl h0.2

/-- Claim C4: when `Set(k, v)` creates `k` (no access count yet) and the
subsequent calls contain no `Delete(k)` and no `Clear`, the access count of
`k` afterwards equals the number of `Get(k)` calls among them (each of which
was a hit: `k` stays stored throughout). -/
theorem access_count_equals_gets (c : Cache) (k v : String) (ops : List Op)
    (hnew : mapLookup c.accessCount k = none)
    (hops : ∀ o ∈ ops, o ≠ Op.del k ∧ o ≠ Op.clear) :
    mapLookup (run (c.Set k v) ops).accessCount k = some (countGetsOf k ops) ∧
      (mapLookup (run (c.Set k v) ops).data k).isSome = true := by
  have h1 : (mapLookup (c.Set k v).data k).isSome = true := by
    simp [Cache.Set]
  have h2 : mapLookup (c.Set k v).accessCount k = some 0 := by
    simp [Cache.Set, hnew]
  simpa using count_after_run ops (c.Set k v) k 0 h1 h2 hops

/-- Claim C4 witness: after creating `"a"` and interleaving two `Get("a")`
calls with traffic on other keys, the access count of `"a"` is 2. -/
theorem access_count_equals_gets_witness :
    mapLookup NewCache.accessCount "a" = none ∧
    (∀ o ∈ [Op.get "a", Op.set "b" "2", Op.get "b", Op.get "a", Op.del "b"],
      o ≠ Op.del "a" ∧ o ≠ Op.clear) ∧
    (mapLookup (run (NewCache.Set "a" "1")
        [Op.get "a", Op.set "b" "2", Op.get "b", Op.get "a", Op.del "b"]).accessCount
      "a" = some (countGetsOf "a"
        [Op.get "a", Op.set "b" "2", Op.get "b", Op.get "a", Op.del "b"]) ∧
      (mapLookup (run (NewCache.Set "a" "1")
        [Op.get "a", Op.set "b" "2", Op.get "b", Op.get "a", Op.del "b"]).data
        "a").isSome = true) :=
  ⟨by decide, by decide,
   access_count_equals_gets NewCache "a" "1"
     [Op.get "a", Op.set "b" "2", Op.get "b", Op.get "a", Op.del "b"]
     (by decide) (by decide)⟩

/-- Claim C5: `Set` on an existing key replaces the value but keeps the
access count: starting from any cache where `k` has no count yet,
`Set(k, v1)`, three `Get(k)` calls (all hits returning `v1`), then
`Set(k, v2)` leaves the count at 3 and a further `Get(k)` returns
`(v2, true)`; moreover that final `Set` left the whole access-count map
untouched. -/
theorem set_does_not_reset_count (c : Cache) (k v1 v2 : String)
    (hnew : mapLookup c.accessCount k = none) :
    ((c.Set k v1).Get k).1 = (v1, true) ∧
    ((((c.Set k v1).Get k).2).Get k).1 = (v1, true) ∧
    (((((c.Set k v1).Get k).2).Get k).2.Get k).1 = (v1, true) ∧
    mapLookup
      ((((((c.Set k v1).Get k).2).Get k).2.Get k).2.Set k v2).accessCount k =
      some 3 ∧
    ((((((c.Set k v1).Get k).2).Get k).2.Get k).2.Set k v2).accessCount =
      (((((c.Set k v1).Get k).2).Get k).2.Get k).2.accessCount ∧
    (((((((c.Set k v1).Get k).2).Get k).2.Get k).2.Set k v2).Get k).1 =
      (v2, true) := by
  have hd1 : mapLookup (c.Set k v1).data k = some v1 := by simp [Cache.Set]
  have ha1 : mapLookup (c.Set k v1).accessCount k = some 0 := by
    simp [Cache.Set, hnew]
  refine ⟨by simp [Cache.Get, hd1], ?_, ?_, ?_, ?_, ?_⟩ <;>
    simp [Cache.Get, Cache.Set, hd1, ha1, hnew, mapIncr]

/-- Claim C5 witness: the scenario on a fresh cache with key `"k"` and
values `"v1"`, `"v2"`. -/
theorem set_does_not_reset_count_witness :
    mapLookup NewCache.accessCount "k" = none ∧
    (((NewCache.Set "k" "v1").Get "k").1 = ("v1", true) ∧
    ((((NewCache.Set "k" "v1").Get "k").2).Get "k").1 = ("v1", true) ∧
    (((((NewCache.Set "k" "v1").Get "k").2).Get "k").2.Get "k").1 =
      ("v1", true) ∧
    mapLookup
      ((((((NewCache.Set "k" "v1").Get "k").2).Get "k").2.Get "k").2.Set
        "k" "v2").accessCount "k" = some 3 ∧
    ((((((NewCache.Set "k" "v1").Get "k").2).Get "k").2.Get "k").2.Set
        "k" "v2").accessCount =
      (((((NewCache.Set "k" "v1").Get "k").2).Get "k").2.Get "k").2.accessCount ∧
    (((((((NewCache.Set "k" "v1").Get "k").2).Get "k").2.Get "k").2.Set
        "k" "v2").Get "k").1 = ("v2", true)) :=
  ⟨by decide, set_does_not_reset_count NewCache "k" "v1" "v2" (by decide)⟩

theorem domSub_applyOp (c : Cache) (h : DomSub c) (o : Op) :
    DomSub (applyOp c o) := by
  cases o with
  | set k2 v =>
      intro k hk
      by_cases hkk : k2 = k
      · subst hkk
        simp [applyOp, Cache.Set]
      · simp only [applyOp, Cache.Set] at hk ⊢
        rw [mapLookup_insert_ne _ _ hkk]
        by_cases hs : (mapLookup c.accessCount k2).isSome
        · simp only [hs, if_pos] at hk
          exact h k hk
        · simp only [hs] at hk
          rw [if_neg (by simp [hs]), mapLookup_insert_ne _ _ hkk] at hk
          exact h k hk
  | get k2 =>
      intro k hk
      cases hv : mapLookup c.data k2 with
      | some v =>
          simp only [applyOp, Cache.Get, hv] at hk ⊢
          by_cases hkk : k2 = k
          · subst hkk; simp [hv]
          · rw [mapIncr, mapLookup_insert_ne _ _ hkk] at hk
            exact h k hk
      | none =>
          simp only [applyOp, Cache.Get, hv] at hk ⊢
          exact h k hk
  | del k2 =>
      intro k hk
      by_cases hs : (mapLookup c.data k2).isSome
      · simp only [applyOp, Cache.Delete, hs, if_pos] at hk ⊢
        by_cases hkk : k2 = k
        · subst hkk; simp [mapLookup_erase_self] at hk
        · rw [mapLookup_erase_ne _ hkk] at hk ⊢
          exact h k hk
      · have he : applyOp c (Op.del k2) = c := by
          simp [applyOp, Cache.Delete, hs]
        rw [he] at hk ⊢
        exact h k hk
  | clear =>
      intro k hk
      simp [applyOp, Cache.Clear, mapLookup] at hk

theorem domSub_run (ops : List Op) : ∀ c : Cache, DomSub c →
    DomSub (run c ops) := by
  induction ops with
  | nil => intro c h; simpa [run] using h
  | cons o ops ih =>
      intro c h
      rw [run_cons]
      exact ih (applyOp c o) (domSub_applyOp c h o)

theorem domSub_newCache : DomSub NewCache := by
  intro k hk
  simp [NewCache, mapLookup] at hk

/-- Claim C6: in any state reachable from a fresh cache, `Delete(k)` followed
by `Set(k, v)` leaves `k` with access count 0: deleting removes the stored
count, so re-insertion starts fresh. -/
theorem delete_then_set_resets_count (ops : List Op) (k v : String) :
    mapLookup ((((run NewCache ops).Delete k).2).Set k v).accessCount k =
      some 0 := by
  have hd : DomSub (run NewCache ops) := domSub_run ops NewCache domSub_newCache
  by_cases hm : (mapLookup (run NewCache ops).data k).isSome
  · simp [Cache.Delete, hm, Cache.Set, mapLookup_erase_self]
  · have hac : mapLookup (run NewCache ops).accessCount k = none := by
      cases hl : mapLookup (run NewCache ops).accessCount k with
      | none => rfl
      | some m => exact absurd (hd k (by simp [hl])) hm
    simp [Cache.Delete, hm, Cache.Set, hac]

/-- Claim C9: in any reachable state, `Delete(k)` returns `true` exactly when
`k` is stored, afterwards `k` is in neither the value map nor the
access-count map, a second `Delete(k)` returns `false`, and the hit and miss
counters are untouched. -/
theorem delete_contract (ops : List Op) (k : String) :
    (((run NewCache ops).Delete k).1 =
      (mapLookup (run NewCache ops).data k).isSome) ∧
    mapLookup (((run NewCache ops).Delete k).2).data k = none ∧
    mapLookup (((run NewCache ops).Delete k).2).accessCount k = none ∧
    ((((run NewCache ops).Delete k).2).Delete k).1 = false ∧
    (((run NewCache ops).Delete k).2).hits = (run NewCache ops).hits ∧
    (((run NewCache ops).Delete k).2).misses = (run NewCache ops).misses := by
  have hd : DomSub (run NewCache ops) := domSub_run ops NewCache domSub_newCache
  by_cases hm : (mapLookup (run NewCache ops).data k).isSome
  · simp [Cache.Delete, hm, mapLookup_erase_self]
  · have hdata : mapLookup (run NewCache ops).data k = none :=
      Option.not_isSome_iff_eq_none.mp hm
    have hac : mapLookup (run NewCache ops).accessCount k = none := by
      cases hl : mapLookup (run NewCache ops).accessCount k with
      | none => rfl
      | some m => exact absurd (hd k (by simp [hl])) hm
    simp [Cache.Delete, hm, hdata, hac]

theorem sort_counts_eq_of_perm {l1 l2 : List (String × Nat)}
    (h : l1.Perm l2) :
    (List.insertionSort descCount l1).map Prod.snd =
      (List.insertionSort descCount l2).map Prod.snd := by
  haveI : IsAntisymm Nat (fun a b : Nat => b ≤ a) :=
    ⟨fun a b h1 h2 => Nat.le_antisymm h2 h1⟩
  haveI : IsTrans Nat (fun a b : Nat => b ≤ a) :=
    ⟨fun _ _ _ hab hbc => Nat.le_trans hbc hab⟩
  apply List.eq_of_perm_of_sorted (r := fun a b : Nat => b ≤ a)
  · exact ((List.perm_insertionSort descCount l1).trans
      (h.trans (List.perm_insertionSort descCount l2).symm)).map Prod.snd
  · exact List.Pairwise.map Prod.snd (fun a b hab => hab)
      (List.sorted_insertionSort descCount l1)
  · exact List.Pairwise.map Prod.snd (fun a b hab => hab)
      (List.sorted_insertionSort descCount l2)

theorem sort_counts_eq_of_perm_asc {l1 l2 : List (String × Nat)}
    (h : l1.Perm l2) :
    (List.insertionSort ascCount l1).map Prod.snd =
      (List.insertionSort ascCount l2).map Prod.snd := by
  haveI : IsAntisymm Nat (fun a b : Nat => a ≤ b) :=
    ⟨fun a b h1 h2 => Nat.le_antisymm h1 h2⟩
  apply List.eq_of_perm_of_sorted (r := fun a b : Nat => a ≤ b)
  · exact ((List.perm_insertionSort ascCount l1).trans
      (h.trans (List.perm_insertionSort ascCount l2).symm)).map Prod.snd
  · exact List.Pairwise.map Prod.snd (fun a b hab => hab)
      (List.sorted_insertionSort ascCount l1)
  · exact List.Pairwise.map Prod.snd (fun a b hab => hab)
      (List.sorted_insertionSort ascCount l2)

theorem keys_eq_of_perm {l1 l2 : List String} (h : l1.Perm l2) :
    List.insertionSort (· ≤ ·) l1 = List.insertionSort (· ≤ ·) l2 := by
  haveI : IsAntisymm String (· ≤ ·) := ⟨fun a b h1 h2 => le_antisymm h1 h2⟩
  haveI : IsTrans String (· ≤ ·) := ⟨fun _ _ _ h1 h2 => le_trans h1 h2⟩
  haveI : IsTotal String (· ≤ ·) := ⟨fun a b => le_total a b⟩
  exact List.eq_of_perm_of_sorted
    ((List.perm_insertionSort _ l1).trans
      (h.trans (List.perm_insertionSort _ l2).symm))
    (List.sorted_insertionSort _ l1) (List.sorted_insertionSort _ l2)

/-- Claim C10 counterexample: two representations of the same cache state
(same key-value entries, same access-count entries `a ↦ 0, b ↦ 0`, same
counters, differing only in the enumeration order that models Go's map
iteration) make `MostAccessed(1)` return `["a"]` in one and `["b"]` in the
other: tie-breaking among equal counts is not deterministic. -/
theorem ranking_tiebreak_not_deterministic :
    StateEq ⟨[("a", "x"), ("b", "y")], [("a", 0), ("b", 0)], 0, 0⟩
        ⟨[("a", "x"), ("b", "y")], [("b", 0), ("a", 0)], 0, 0⟩ ∧
    Cache.MostAccessed
        ⟨[("a", "x"), ("b", "y")], [("a", 0), ("b", 0)], 0, 0⟩ 1 = some ["a"] ∧
    Cache.MostAccessed
        ⟨[("a", "x"), ("b", "y")], [("b", 0), ("a", 0)], 0, 0⟩ 1 = some ["b"] ∧
    Cache.MostAccessed
        ⟨[("a", "x"), ("b", "y")], [("a", 0), ("b", 0)], 0, 0⟩ 1 ≠
      Cache.MostAccessed
        ⟨[("a", "x"), ("b", "y")], [("b", 0), ("a", 0)], 0, 0⟩ 1 := by
  refine ⟨⟨List.Perm.refl _, List.Perm.swap ("b", 0) ("a", 0) [], rfl, rfl⟩,
    ?_, ?_, ?_⟩ <;> decide

/-- Claim C10 (amended): on equal cache states, `Keys()` (lexicographic),
`Size()` and `Stats()` are identical, and `MostAccessed(n)` /
`LeastAccessed(n)` agree in length and in the sequence of access counts along
their output — but the identity of keys with tied counts depends on the map's
enumeration order, so the ranked key sequences themselves need not coincide. -/
theorem queries_deterministic_up_to_ties (c1 c2 : Cache) (n : Int)
    (h : StateEq c1 c2) :
    c1.Keys = c2.Keys ∧ c1.Size = c2.Size ∧ c1.Stats = c2.Stats ∧
    mostAccessedCounts c1 n = mostAccessedCounts c2 n ∧
    leastAccessedCounts c1 n = leastAccessedCounts c2 n ∧
    (c1.MostAccessed n).map List.length =
      (c2.MostAccessed n).map List.length ∧
    (c1.LeastAccessed n).map List.length =
      (c2.LeastAccessed n).map List.length := by
  obtain ⟨hdata, hac, hhits, hmisses⟩ := h
  have hcd : (sortedDesc c1).map Prod.snd = (sortedDesc c2).map Prod.snd :=
    sort_counts_eq_of_perm hac
  have hca : (sortedAsc c1).map Prod.snd = (sortedAsc c2).map Prod.snd :=
    sort_counts_eq_of_perm_asc hac
  have hld : (sortedDesc c1).length = (sortedDesc c2).length := by
    have h1 := (List.perm_insertionSort descCount c1.accessCount).length_eq
    have h2 := (List.perm_insertionSort descCount c2.accessCount).length_eq
    unfold sortedDesc
    rw [h1, h2, hac.length_eq]
  have hla : (sortedAsc c1).length = (sortedAsc c2).length := by
    have h1 := (List.perm_insertionSort ascCount c1.accessCount).length_eq
    have h2 := (List.perm_insertionSort ascCount c2.accessCount).length_eq
    unfold sortedAsc
    rw [h1, h2, hac.length_eq]
  refine ⟨keys_eq_of_perm (hdata.map Prod.fst), hdata.length_eq, ?_, ?_, ?_,
    ?_, ?_⟩
  · simp [Cache.Stats, hhits, hmisses]
  · by_cases hn : n < 0
    · simp [mostAccessedCounts, hn]
    · simp only [mostAccessedCounts, hn, if_neg]
      rw [List.map_take, List.map_take, hcd]
  · by_cases hn : n < 0
    · simp [leastAccessedCounts, hn]
    · simp only [leastAccessedCounts, hn, if_neg]
      rw [List.map_take, List.map_take, hca]
  · by_cases hn : n < 0 <;>
      simp [Cache.MostAccessed, hn, List.length_take, hld]
  · by_cases hn : n < 0 <;>
      simp [Cache.LeastAccessed, hn, List.length_take, hla]

/-- Claim C10 witness: the amended determinism statement instantiated on the
two enumeration orders of the tied two-key state, at `n = 1`. -/
theorem queries_deterministic_up_to_ties_witness :
    StateEq ⟨[("a", "x"), ("b", "y")], [("a", 0), ("b", 0)], 0, 0⟩
        ⟨[("a", "x"), ("b", "y")], [("b", 0), ("a", 0)], 0, 0⟩ ∧
    (Cache.Keys ⟨[("a", "x"), ("b", "y")], [("a", 0), ("b", 0)], 0, 0⟩ =
      Cache.Keys ⟨[("a", "x"), ("b", "y")], [("b", 0), ("a", 0)], 0, 0⟩ ∧
    Cache.Size ⟨[("a", "x"), ("b", "y")], [("a", 0), ("b", 0)], 0, 0⟩ =
      Cache.Size ⟨[("a", "x"), ("b", "y")], [("b", 0), ("a", 0)], 0, 0⟩ ∧
    Cache.Stats ⟨[("a", "x"), ("b", "y")], [("a", 0), ("b", 0)], 0, 0⟩ =
      Cache.Stats ⟨[("a", "x"), ("b", "y")], [("b", 0), ("a", 0)], 0, 0⟩ ∧
    mostAccessedCounts ⟨[("a", "x"), ("b", "y")], [("a", 0), ("b", 0)], 0, 0⟩ 1 =
      mostAccessedCounts ⟨[("a", "x"), ("b", "y")], [("b", 0), ("a", 0)], 0, 0⟩ 1 ∧
    leastAccessedCounts ⟨[("a", "x"), ("b", "y")], [("a", 0), ("b", 0)], 0, 0⟩ 1 =
      leastAccessedCounts ⟨[("a", "x"), ("b", "y")], [("b", 0), ("a", 0)], 0, 0⟩ 1 ∧
    (Cache.MostAccessed
        ⟨[("a", "x"), ("b", "y")], [("a", 0), ("b", 0)], 0, 0⟩ 1).map List.length =
      (Cache.MostAccessed
        ⟨[("a", "x"), ("b", "y")], [("b", 0), ("a", 0)], 0, 0⟩ 1).map List.length ∧
    (Cache.LeastAccessed
        ⟨[("a", "x"), ("b", "y")], [("a", 0), ("b", 0)], 0, 0⟩ 1).map List.length =
      (Cache.LeastAccessed
        ⟨[("a", "x"), ("b", "y")], [("b", 0), ("a", 0)], 0, 0⟩ 1).map List.length) :=
  ⟨⟨List.Perm.refl _, List.Perm.swap ("b", 0) ("a", 0) [], rfl, rfl⟩,
   queries_deterministic_up_to_ties
     ⟨[("a", "x"), ("b", "y")], [("a", 0), ("b", 0)], 0, 0⟩
     ⟨[("a", "x"), ("b", "y")], [("b", 0), ("a", 0)], 0, 0⟩ 1
     ⟨List.Perm.refl _, List.Perm.swap ("b", 0) ("a", 0) [], rfl, rfl⟩⟩

end GoCache
